import Mathlib

/-!
Verification of the incremental change-detection and caching engine of
`cursor-directory-structure-ts`.

The development shallowly embeds the relevant parts of the TypeScript
source:

* `src/cache-manager.ts` — the fingerprint store (`CacheManager`):
  MD5-based per-file and per-function hash cache with write-through
  persistence.
* `src/incremental-generator.ts` — the snapshot cache and change
  detector (`IncrementalGenerator`): git-based `detectChanges`,
  versioned cache loading, synthetic references without git.
* `src/rules-watcher.ts` — the debounced file watcher (`RulesWatcher`)
  and the project registry (`ProjectWatcherManager`).

JavaScript objects used as string-keyed maps are embedded as
association lists with replace-or-append insertion; the file system and
git are passed in explicitly as environment values; `Date.now()`
becomes an explicit `now : Nat` argument (milliseconds).
-/

namespace CursorDirectory

/-! ### MD5 (model of `crypto.createHash('md5').update(content).digest('hex')`)

`CacheManager.calculateHash` delegates to Node's MD5. We embed MD5
(RFC 1321) over the UTF-8 bytes of the string, producing the lowercase
hex digest, with 32-bit words represented as `Nat` reduced mod 2^32. -/

/-- 2^32, the modulus for 32-bit words. -/
def w32mod : Nat := 4294967296

/-- Bitwise complement of a 32-bit word represented as `Nat`. -/
def wnot (x : Nat) : Nat := 4294967295 - (x % w32mod)

/-- Left-rotation of a 32-bit word by `s` bits. -/
def rotl (x s : Nat) : Nat :=
  (((x % w32mod) <<< s) ||| ((x % w32mod) >>> (32 - s))) % w32mod

/-- The 64 per-round sine-derived constants of MD5 (RFC 1321). -/
def kTable : List Nat :=
  [0xd76aa478, 0xe8c7b756, 0x242070db, 0xc1bdceee,
   0xf57c0faf, 0x4787c62a, 0xa8304613, 0xfd469501,
   0x698098d8, 0x8b44f7af, 0xffff5bb1, 0x895cd7be,
   0x6b901122, 0xfd987193, 0xa679438e, 0x49b40821,
   0xf61e2562, 0xc040b340, 0x265e5a51, 0xe9b6c7aa,
   0xd62f105d, 0x02441453, 0xd8a1e681, 0xe7d3fbc8,
   0x21e1cde6, 0xc33707d6, 0xf4d50d87, 0x455a14ed,
   0xa9e3e905, 0xfcefa3f8, 0x676f02d9, 0x8d2a4c8a,
   0xfffa3942, 0x8771f681, 0x6d9d6122, 0xfde5380c,
   0xa4beea44, 0x4bdecfa9, 0xf6bb4b60, 0xbebfbc70,
   0x289b7ec6, 0xeaa127fa, 0xd4ef3085, 0x04881d05,
   0xd9d4d039, 0xe6db99e5, 0x1fa27cf8, 0xc4ac5665,
   0xf4292244, 0x432aff97, 0xab9423a7, 0xfc93a039,
   0x655b59c3, 0x8f0ccc92, 0xffeff47d, 0x85845dd1,
   0x6fa87e4f, 0xfe2ce6e0, 0xa3014314, 0x4e0811a1,
   0xf7537e82, 0xbd3af235, 0x2ad7d2bb, 0xeb86d391]

/-- The 64 per-round left-rotation amounts of MD5. -/
def sTable : List Nat :=
  [7, 12, 17, 22, 7, 12, 17, 22, 7, 12, 17, 22, 7, 12, 17, 22,
   5, 9, 14, 20, 5, 9, 14, 20, 5, 9, 14, 20, 5, 9, 14, 20,
   4, 11, 16, 23, 4, 11, 16, 23, 4, 11, 16, 23, 4, 11, 16, 23,
   6, 10, 15, 21, 6, 10, 15, 21, 6, 10, 15, 21, 6, 10, 15, 21]

/-- One MD5 round: state `(a, b, c, d)`, message words `M`, round `i`. -/
def md5Round (M : List Nat) (st : Nat × Nat × Nat × Nat) (i : Nat) :
    Nat × Nat × Nat × Nat :=
  let (a, b, c, d) := st
  let fg : Nat × Nat :=
    if i < 16 then ((b &&& c) ||| (wnot b &&& d), i)
    else if i < 32 then ((d &&& b) ||| (wnot d &&& c), (5 * i + 1) % 16)
    else if i < 48 then (b ^^^ c ^^^ d, (3 * i + 5) % 16)
    else (c ^^^ (b ||| wnot d), (7 * i) % 16)
  let f := (fg.1 + a + kTable.getD i 0 + M.getD fg.2 0) % w32mod
  (d, (b + rotl f (sTable.getD i 0)) % w32mod, b, c)

/-- Process one 512-bit block (given as 16 little-endian 32-bit words). -/
def md5Compress (st : Nat × Nat × Nat × Nat) (M : List Nat) :
    Nat × Nat × Nat × Nat :=
  let r := (List.range 64).foldl (md5Round M) st
  ((st.1 + r.1) % w32mod, (st.2.1 + r.2.1) % w32mod,
   (st.2.2.1 + r.2.2.1) % w32mod, (st.2.2.2 + r.2.2.2) % w32mod)

/-- Little-endian 4-byte encoding of a 32-bit word. -/
def le32 (w : Nat) : List Nat :=
  [w % 256, w / 256 % 256, w / 65536 % 256, w / 16777216 % 256]

/-- Little-endian 8-byte encoding of a 64-bit length field. -/
def le64 (w : Nat) : List Nat :=
  [w % 256, w / 2 ^ 8 % 256, w / 2 ^ 16 % 256, w / 2 ^ 24 % 256,
   w / 2 ^ 32 % 256, w / 2 ^ 40 % 256, w / 2 ^ 48 % 256, w / 2 ^ 56 % 256]

/-- Convert a 64-byte block to its 16 little-endian words. -/
def toWords (block : List Nat) : List Nat :=
  (List.range 16).map fun j =>
    block.getD (4 * j) 0 + 256 * block.getD (4 * j + 1) 0 +
      65536 * block.getD (4 * j + 2) 0 + 16777216 * block.getD (4 * j + 3) 0

/-- Split a byte list into 64-byte chunks (structural recursion on a
fuel bound so the definition reduces in the kernel; `fuel = l.length`
always suffices because each step consumes at least one byte). -/
def chunksGo : Nat → List Nat → List (List Nat)
  | _, [] => []
  | 0, _ :: _ => []
  | fuel + 1, l => l.take 64 :: chunksGo fuel (l.drop 64)

/-- Split a byte list into 64-byte chunks. -/
def chunks64 (l : List Nat) : List (List Nat) :=
  chunksGo l.length l

/-- The MD5 digest (16 bytes) of a byte sequence. -/
def md5Digest (msg : List Nat) : List Nat :=
  let bitLen := (8 * msg.length) % 2 ^ 64
  let padLen := (119 - msg.length % 64) % 64
  let padded := msg ++ [128] ++ List.replicate padLen 0 ++ le64 bitLen
  let st := (chunks64 padded).foldl (fun st blk => md5Compress st (toWords blk))
    (0x67452301, 0xefcdab89, 0x98badcfe, 0x10325476)
  le32 st.1 ++ le32 st.2.1 ++ le32 st.2.2.1 ++ le32 st.2.2.2

/-- UTF-8 encoding of one character, as byte values. -/
def utf8Bytes (c : Char) : List Nat :=
  let n := c.toNat
  if n < 0x80 then [n]
  else if n < 0x800 then [0xc0 + n / 64, 0x80 + n % 64]
  else if n < 0x10000 then
    [0xe0 + n / 4096, 0x80 + n / 64 % 64, 0x80 + n % 64]
  else
    [0xf0 + n / 262144, 0x80 + n / 4096 % 64, 0x80 + n / 64 % 64,
     0x80 + n % 64]

/-- UTF-8 encoding of a string, as byte values. -/
def strBytes (s : String) : List Nat :=
  s.data.foldr (fun c acc => utf8Bytes c ++ acc) []

/-- Lowercase hexadecimal digit character for a value below 16. -/
def hexDigitChar (n : Nat) : Char :=
  if n < 10 then Char.ofNat (48 + n) else Char.ofNat (87 + n)

/-- Lowercase hex string of a byte list, two digits per byte. -/
def bytesToHex (l : List Nat) : String :=
  String.mk (l.foldr
    (fun b acc => hexDigitChar (b / 16 % 16) :: hexDigitChar (b % 16) :: acc)
    [])

/-- `CacheManager.calculateHash`: the MD5 hex digest of the content
(`crypto.createHash('md5').update(content).digest('hex')`). -/
def calculateHash (content : String) : String :=
  bytesToHex (md5Digest (strBytes content))

/-! ### Association lists (JavaScript objects used as string-keyed maps)

`lookupA` is property access, `setA` is property assignment
(replace-or-append), `removeA` is the `delete` operator. -/

/-- Property access `obj[k]` (`undefined` becomes `none`). -/
def lookupA {α : Type} : List (String × α) → String → Option α
  | [], _ => none
  | (k', v) :: rest, k => if k' = k then some v else lookupA rest k

/-- Property assignment `obj[k] = v`. -/
def setA {α : Type} : List (String × α) → String → α → List (String × α)
  | [], k, v => [(k, v)]
  | (k', v') :: rest, k, v =>
    if k' = k then (k, v) :: rest else (k', v') :: setA rest k v

/-- Property deletion `delete obj[k]`. -/
def removeA {α : Type} : List (String × α) → String → List (String × α)
  | [], _ => []
  | (k', v') :: rest, k =>
    if k' = k then removeA rest k else (k', v') :: removeA rest k

theorem lookupA_setA {α : Type} (l : List (String × α)) (k : String) (v : α)
    (k' : String) :
    lookupA (setA l k v) k' = if k = k' then some v else lookupA l k' := by
  induction l with
  | nil => simp [setA, lookupA]
  | cons kv rest ih =>
    obtain ⟨k₀, v₀⟩ := kv
    by_cases h : k₀ = k
    · subst h
      simp only [setA, if_pos rfl, lookupA]
      by_cases h' : k₀ = k' <;> simp [h']
    · simp only [setA, if_neg h, lookupA]
      by_cases h' : k₀ = k'
      · subst h'
        have hne : ¬ k = k₀ := fun he => h he.symm
        simp [if_neg hne]
      · simp [if_neg h', ih]

theorem lookupA_removeA {α : Type} (l : List (String × α)) (k k' : String) :
    lookupA (removeA l k) k' = if k = k' then none else lookupA l k' := by
  induction l with
  | nil => simp [removeA, lookupA]
  | cons kv rest ih =>
    obtain ⟨k₀, v₀⟩ := kv
    by_cases h : k₀ = k
    · subst h
      rw [removeA, if_pos rfl, ih]
      by_cases h' : k₀ = k' <;> simp [lookupA, h']
    · simp only [removeA, if_neg h, lookupA]
      by_cases h' : k₀ = k'
      · subst h'
        have hne : ¬ k = k₀ := fun he => h he.symm
        simp [if_neg hne]
      · simp [if_neg h', ih]

/-! ### `CacheManager` (src/cache-manager.ts)

State: the in-memory `this.cache` table plus the on-disk cache
directory (one JSON file per project id). Disk files round-trip
through JSON, so they are modelled structurally. -/

/-- One function sub-entry of a cached file. -/
structure FuncEntry where
  description : String
  hash : String
deriving DecidableEq, Repr

/-- One cached file entry of the per-project `FileCache`. -/
structure FileEntry where
  content : String
  hash : String
  lastModified : Nat
  functions : List (String × FuncEntry)
deriving DecidableEq, Repr

/-- `FileCache`: file path → entry. -/
abbrev FileCache := List (String × FileEntry)

/-- `ProjectCache`: project id → `FileCache`. -/
abbrev ProjectCache := List (String × FileCache)

/-- State of a `CacheManager`: `this.cache` and the cache directory. -/
structure CMState where
  mem : ProjectCache
  disk : ProjectCache
deriving DecidableEq, Repr

/-- A freshly constructed `CacheManager` over an empty cache directory. -/
def CMState.init : CMState := ⟨[], []⟩

/-- `loadProjectCache`: read the project's JSON file (or `{}` when the
file is missing or unreadable) into `this.cache[projectId]`. -/
def loadProjectCache (s : CMState) (projectId : String) : CMState :=
  { s with mem := setA s.mem projectId ((lookupA s.disk projectId).getD []) }

/-- The lazy-load guard `if (!this.cache[projectId]) this.loadProjectCache(...)`
that every public method starts with. -/
def ensureLoaded (s : CMState) (projectId : String) : CMState :=
  match lookupA s.mem projectId with
  | some _ => s
  | none => loadProjectCache s projectId

/-- `saveProjectCache`: write `this.cache[projectId]` to the project's file. -/
def saveProjectCache (s : CMState) (projectId : String) : CMState :=
  { s with disk := setA s.disk projectId ((lookupA s.mem projectId).getD []) }

/-- The in-memory table `this.cache[projectId]` (after a load, never absent). -/
def memTable (s : CMState) (projectId : String) : FileCache :=
  (lookupA s.mem projectId).getD []

/-- `hasFileChanged`: true if no entry exists or the stored hash differs
from the hash of `content`; returns the (possibly lazily loaded) state. -/
def hasFileChanged (s : CMState) (projectId filePath content : String) :
    Bool × CMState :=
  let s := ensureLoaded s projectId
  let currentHash := calculateHash content
  match lookupA (memTable s projectId) filePath with
  | none => (true, s)
  | some cachedFile => (if cachedFile.hash = currentHash then false else true, s)

/-- `updateFileCache`: store content, hash and timestamp, keeping any
existing `functions` sub-map, then persist the project file. -/
def updateFileCache (s : CMState) (projectId filePath content : String)
    (now : Nat) : CMState :=
  let s := ensureLoaded s projectId
  let table := memTable s projectId
  let entry : FileEntry :=
    { content := content
      hash := calculateHash content
      lastModified := now
      functions := ((lookupA table filePath).map FileEntry.functions).getD [] }
  let s := { s with mem := setA s.mem projectId (setA table filePath entry) }
  saveProjectCache s projectId

/-- `updateFunctionCache`: store one function's hash and description,
creating the parent entry `{content: '', hash: '', lastModified: 0,
functions: {}}` when absent, then persist. -/
def updateFunctionCache
    (s : CMState)
    (projectId filePath functionName functionContent description : String) :
    CMState :=
  let s := ensureLoaded s projectId
  let table := memTable s projectId
  let entry := (lookupA table filePath).getD
    { content := "", hash := "", lastModified := 0, functions := [] }
  let entry := { entry with
    functions := setA entry.functions functionName
      { description := description, hash := calculateHash functionContent } }
  let s := { s with mem := setA s.mem projectId (setA table filePath entry) }
  saveProjectCache s projectId

/-- `getCachedFileContent`: `this.cache[projectId][filePath]?.content || null`
(the `||` turns the falsy empty string into `null`). -/
def getCachedFileContent (s : CMState) (projectId filePath : String) :
    Option String × CMState :=
  let s := ensureLoaded s projectId
  match lookupA (memTable s projectId) filePath with
  | none => (none, s)
  | some e => (if e.content = "" then none else some e.content, s)

/-- `clearProjectCache`: delete the project's file and its in-memory table. -/
def clearProjectCache (s : CMState) (projectId : String) : CMState :=
  { mem := removeA s.mem projectId, disk := removeA s.disk projectId }

/-- The operations of the `CacheManager` public interface, used to
describe reachable states. -/
inductive CMOp where
  | opUpdateFile (projectId filePath content : String) (now : Nat)
  | opUpdateFunction
      (projectId filePath functionName functionContent description : String)
  | opLoad (projectId : String)
  | opClear (projectId : String)
  | opQueryChanged (projectId filePath content : String)
  | opQueryContent (projectId filePath : String)
deriving DecidableEq, Repr

/-- State effect of one operation (queries keep only their lazy load). -/
def applyOp (s : CMState) : CMOp → CMState
  | .opUpdateFile id p c now => updateFileCache s id p c now
  | .opUpdateFunction id p fn fc d => updateFunctionCache s id p fn fc d
  | .opLoad id => loadProjectCache s id
  | .opClear id => clearProjectCache s id
  | .opQueryChanged id p c => (hasFileChanged s id p c).2
  | .opQueryContent id p => (getCachedFileContent s id p).2

/-- Run a sequence of operations from a state. -/
def runOps (s : CMState) (ops : List CMOp) : CMState := ops.foldl applyOp s

/-- Does an operation pass `(projectId, filePath)` to `updateFileCache`? -/
def writesFile : CMOp → String → String → Bool
  | .opUpdateFile id p _ _, id', p' => id == id' && p == p'
  | _, _, _ => false

/-- The entry stored at `(projectId, filePath)` in a table of tables. -/
def entryIn (tables : ProjectCache) (projectId filePath : String) :
    Option FileEntry :=
  (lookupA tables projectId).bind fun t => lookupA t filePath

/-- The entry a `CacheManager` method sees for `(projectId, filePath)`:
the in-memory entry after the lazy load. -/
def viewEntry (s : CMState) (projectId filePath : String) : Option FileEntry :=
  entryIn (ensureLoaded s projectId).mem projectId filePath

/-- The entry `updateFunctionCache` writes at `(id, p)`: the visible
entry (or the `{content: '', hash: '', lastModified: 0}` default) with
one function sub-entry stored. -/
def funcUpdatedEntry (s : CMState) (id p fn fc d : String) : FileEntry :=
  let e := (viewEntry s id p).getD
    { content := "", hash := "", lastModified := 0, functions := [] }
  let fns := setA e.functions fn { description := d, hash := calculateHash fc }
  { e with functions := fns }

/-- States in which `(id, p)`, if present at all, carries the empty
placeholder hash — in memory and on disk. Every state reachable without
passing `(id, p)` to `updateFileCache` satisfies this. -/
def UntouchedInv (s : CMState) (id p : String) : Prop :=
  (∀ e, entryIn s.mem id p = some e → e.hash = "") ∧
  (∀ e, entryIn s.disk id p = some e → e.hash = "")

/-! ### `IncrementalGenerator` (src/incremental-generator.ts)

`loadCache`, `getCurrentGitRef` and `detectChanges`. The environment
(cache file on disk, memoized cache, git availability, current time,
diff output) is passed in explicitly. -/

/-- `CachedAppData[string]`. -/
structure CachedAppEntry where
  files : Nat
  lines : Nat
  type : String
  description : String
  hash : String
deriving DecidableEq, Repr

/-- `CachedPackageData[string]`. -/
structure CachedPackageEntry where
  files : Nat
  lines : Nat
  description : String
  hash : String
deriving DecidableEq, Repr

/-- `CachedGroveFeature`. -/
structure CachedGroveFeature where
  name : String
  path : String
  currentPhase : String
  hasPlanning : Bool
  hasDesign : Bool
  hasStories : Bool
  hash : String
deriving DecidableEq, Repr

/-- The persisted incremental snapshot (`IncrementalCache`). -/
structure IncrementalCache where
  version : String
  lastGitRef : String
  lastGenerated : String
  projectId : String
  apps : List (String × CachedAppEntry)
  packages : List (String × CachedPackageEntry)
  groveFeatures : List CachedGroveFeature
  fileHashes : List (String × String)
  aiDescriptions : List (String × String)
deriving DecidableEq, Repr

/-- `ChangeSet`. -/
structure ChangeSet where
  added : List String
  modified : List String
  deleted : List String
  unchanged : List String
deriving DecidableEq, Repr

/-- `const CACHE_VERSION = '2.0'`. -/
def CACHE_VERSION : String := "2.0"

/-- Result of reading the snapshot file when it exists: its JSON either
parses to a structured record or does not parse (read errors land in the
same `catch`). -/
inductive CacheFileRead where
  | unparsable
  | parsed (data : IncrementalCache)
deriving DecidableEq, Repr

/-- The environment a `detectChanges` call runs in: the snapshot file
(`none` = does not exist), the memoized `this.cache`, the trimmed-later
stdout of `git rev-parse HEAD` (`none` = git throws), `Date.now()`, and
the stdout of the history-diff command (`none` = the diff throws). -/
structure GenEnv where
  cacheFile : Option CacheFileRead
  memo : Option IncrementalCache
  git : Option String
  now : Nat
  diff : Option String
deriving DecidableEq, Repr

/-- `loadCache`: memoized cache if set; else `null` when the file is
missing, unparsable, or carries a version other than `CACHE_VERSION`. -/
def loadCache (memo : Option IncrementalCache) (file : Option CacheFileRead) :
    Option IncrementalCache :=
  match memo with
  | some c => some c
  | none =>
    match file with
    | none => none
    | some .unparsable => none
    | some (.parsed data) =>
      if data.version = CACHE_VERSION then some data else none

/-- Decimal digit character (`0`–`9`). -/
def digitChar (n : Nat) : Char := Char.ofNat (48 + n)

/-- Decimal digits of a number, most significant first, with a fuel
argument so the definition reduces in the kernel (`fuel = n` suffices). -/
def decimalDigitsGo : Nat → Nat → List Char
  | 0, n => [digitChar (n % 10)]
  | fuel + 1, n =>
    if n < 10 then [digitChar n]
    else decimalDigitsGo fuel (n / 10) ++ [digitChar (n % 10)]

/-- JavaScript number-to-string conversion for a nonnegative integer
(the `${Date.now()}` interpolation): decimal, no leading zeros. -/
def decimalString (n : Nat) : String := String.mk (decimalDigitsGo n n)

/-- JavaScript `String.prototype.trim()`: drop whitespace from both
ends. -/
def jsTrim (s : String) : String :=
  String.mk
    (((s.data.dropWhile Char.isWhitespace).reverse.dropWhile
      Char.isWhitespace).reverse)

/-- `getCurrentGitRef`: the trimmed stdout of `git rev-parse HEAD`, or
the synthetic token `` `time-${Date.now()}` `` when git throws. -/
def getCurrentGitRef (git : Option String) (now : Nat) : String :=
  match git with
  | some out => jsTrim out
  | none => "time-" ++ decimalString now

/-- Split a character list at every occurrence of a separator
character (JavaScript `str.split(sep)` for a one-character separator:
`"".split` gives `[""]`, a trailing separator gives a trailing empty
group). -/
def splitChar (sep : Char) : List Char → List (List Char)
  | [] => [[]]
  | c :: rest =>
    match splitChar sep rest with
    | [] => [[]]
    | grp :: grps =>
      if c = sep then [] :: grp :: grps else (c :: grp) :: grps

/-- JavaScript `str.split(sep)` for a one-character separator. -/
def jsSplit (s : String) (sep : Char) : List String :=
  (splitChar sep s.data).map String.mk

/-- JavaScript `arr.join(sep)`. -/
def jsJoin (sep : String) : List String → String
  | [] => ""
  | s :: rest => rest.foldl (fun acc t => acc ++ sep ++ t) s

/-- One line of `git diff --name-status` output, folded into the
`ChangeSet` being built: `const [status, ...pathParts] = line.split('\t')`,
path = `pathParts.join('\t')`; `A`/`M`/`D` append to the matching list;
exactly `R` appends the old path to `deleted` and the new path to
`added` (a missing path field is JS `undefined`); anything else is
dropped. -/
def parseDiffLine (cs : ChangeSet) (line : String) : ChangeSet :=
  match jsSplit line '\t' with
  | [] => cs
  | status :: pathParts =>
    let filePath := jsJoin "\t" pathParts
    if status = "A" then { cs with added := cs.added ++ [filePath] }
    else if status = "M" then { cs with modified := cs.modified ++ [filePath] }
    else if status = "D" then { cs with deleted := cs.deleted ++ [filePath] }
    else if status = "R" then
      { cs with deleted := cs.deleted ++ [pathParts.getD 0 "undefined"],
                added := cs.added ++ [pathParts.getD 1 "undefined"] }
    else cs

/-- The loop over `diffOutput.split('\n').filter(Boolean)`. -/
def parseDiffOutput (out : String) : ChangeSet :=
  ((jsSplit out '\n').filter (fun l => l ≠ "")).foldl parseDiffLine
    { added := [], modified := [], deleted := [], unchanged := [] }

/-- `detectChanges`. -/
def detectChanges (env : GenEnv) : ChangeSet :=
  match loadCache env.memo env.cacheFile with
  | none => { added := ["*"], modified := [], deleted := [], unchanged := [] }
  | some cache =>
    let lastRef := cache.lastGitRef
    let currentRef := getCurrentGitRef env.git env.now
    if lastRef = currentRef then
      { added := [], modified := [], deleted := [], unchanged := ["*"] }
    else
      match env.diff with
      | none =>
        { added := ["*"], modified := [], deleted := [], unchanged := [] }
      | some out => parseDiffOutput out

/-! ### `RulesWatcher` debounce (src/rules-watcher.ts, second definition)

The debounce mechanics of `handleFileChange`: the session's single
`updateTimeout` handle, the platform's set of scheduled timers for this
session, and the **async** timer callback. The callback runs
synchronously up to `await this.updateRules()`; the assignment
`this.updateTimeout = null` is its continuation and runs only when the
awaited regeneration resolves, so other events can interleave between
the two. The relevance filter (`shouldProcessFile`) and the cache
answer are inputs of the events. -/

/-- `this.updateDelay = 5000` (minimum ms between regenerations). -/
def updateDelay : Nat := 5000

/-- State of one watch session plus the platform timers it owns.
`inFlight` counts callbacks suspended at `await this.updateRules()`
whose continuation has not run yet. -/
structure WatchState where
  autoUpdate : Bool
  updateTimeout : Option Nat
  liveTimers : List Nat
  nextHandle : Nat
  lastUpdate : Nat
  regenCount : Nat
  inFlight : Nat
deriving DecidableEq, Repr

/-- A freshly constructed watcher (second `RulesWatcher` class):
`autoUpdate = true`, `lastUpdate = 0`, no pending timer, nothing in
flight. -/
def WatchState.init : WatchState :=
  { autoUpdate := true, updateTimeout := none, liveTimers := [],
    nextHandle := 0, lastUpdate := 0, regenCount := 0, inFlight := 0 }

/-- `handleFileChange`: bail out unless auto-update is on and the path
is relevant; otherwise `clearTimeout` the stored handle (if any — a
no-op when that handle has already fired) and schedule a fresh timer,
storing its handle. -/
def handleFileChange (s : WatchState) (relevant : Bool) : WatchState :=
  if ¬ s.autoUpdate then s
  else if ¬ relevant then s
  else
    let live := match s.updateTimeout with
      | some h => s.liveTimers.erase h
      | none => s.liveTimers
    { s with liveTimers := live ++ [s.nextHandle],
             updateTimeout := some s.nextHandle,
             nextHandle := s.nextHandle + 1 }

/-- Expiry of timer `h` at time `now`: if the timer is still scheduled
it fires and the callback runs its synchronous prefix — return early
when the minimum interval has not elapsed or the cache says the file is
unchanged (`changed` is the `hasFileChanged` answer); otherwise record
the update time and start `updateRules()`, suspending at the `await`.
The stored `updateTimeout` handle is *not* cleared here: that
assignment runs only in the continuation, `completeRegen`. -/
def fireTimer (s : WatchState) (h now : Nat) (changed : Bool) : WatchState :=
  if h ∈ s.liveTimers then
    let s₁ := { s with liveTimers := s.liveTimers.erase h }
    if now - s₁.lastUpdate < updateDelay then s₁
    else if ¬ changed then s₁
    else { s₁ with lastUpdate := now, regenCount := s₁.regenCount + 1,
                   inFlight := s₁.inFlight + 1 }
  else s

/-- Resolution of an awaited `updateRules()`: the continuation runs
`this.updateTimeout = null`, whatever handle is stored by then (a
rejected `updateRules` would land in the `catch` and skip the
assignment; this event models the successful path). -/
def completeRegen (s : WatchState) : WatchState :=
  if 0 < s.inFlight then
    { s with inFlight := s.inFlight - 1, updateTimeout := none }
  else s

/-- Events driving a watch session. -/
inductive WEvent where
  | fsEvent (relevant : Bool)
  | expire (h now : Nat) (changed : Bool)
  | complete
deriving DecidableEq, Repr

/-- One step of the session. -/
def stepW (s : WatchState) : WEvent → WatchState
  | .fsEvent rel => handleFileChange s rel
  | .expire h now changed => fireTimer s h now changed
  | .complete => completeRegen s

/-- Run a sequence of events. -/
def runW (s : WatchState) (evs : List WEvent) : WatchState := evs.foldl stepW s

/-- The claimed debounce invariant: at most one scheduled timer, every
scheduled timer is the one stored in `updateTimeout`, and the stored
handle is never a future handle. -/
def TimerInv (s : WatchState) : Prop :=
  s.liveTimers.length ≤ 1 ∧
  (∀ h ∈ s.liveTimers, s.updateTimeout = some h) ∧
  (∀ h, s.updateTimeout = some h → h < s.nextHandle)

/-- The interleaving that breaks the invariant: schedule a timer, let
it fire and start regenerating, receive a relevant event during the
`await` (it clears the already-fired handle — a no-op — and schedules
timer 1), let the regeneration's continuation null the stored handle
(orphaning timer 1), then receive one more relevant event (nothing to
cancel — it schedules timer 2 while timer 1 is still scheduled). -/
def raceTrace : List WEvent :=
  [WEvent.fsEvent true,
   WEvent.expire 0 6000 true,
   WEvent.fsEvent true,
   WEvent.complete,
   WEvent.fsEvent true]

/-! ### `ProjectWatcherManager` (src/rules-watcher.ts) -/

/-- Node's `path.basename` for POSIX paths: strip trailing separators,
keep the part after the last remaining separator. -/
def basename (p : String) : String :=
  String.mk
    ((((p.data.reverse).dropWhile (fun c => c = '/')).takeWhile
      (fun c => c ≠ '/')).reverse)

/-- What the registry keeps per project: the `RulesWatcher` it built
(identified by the path it watches and its id). -/
structure RulesWatcherRep where
  projectPath : String
  projectId : String
deriving DecidableEq, Repr

/-- `this.watchers`. -/
abbrev Watchers := List (String × RulesWatcherRep)

/-- `addProject(projectPath, projectId)`: no-op returning the id when
already registered, else build and register a watcher for the path. -/
def addProject (w : Watchers) (projectPath : String) (projectId : String) :
    Watchers × String :=
  match lookupA w projectId with
  | some _ => (w, projectId)
  | none => (setA w projectId ⟨projectPath, projectId⟩, projectId)

/-- `addProject` with the default second argument
`projectId = path.basename(projectPath)`. -/
def addProjectDefault (w : Watchers) (projectPath : String) :
    Watchers × String :=
  addProject w projectPath (basename projectPath)

/-- `generateProjectId`. -/
def generateProjectId (projectPath : String) : String := basename projectPath

/-- A concrete valid snapshot, used to instantiate theorems. -/
def sampleCache : IncrementalCache :=
  { version := "2.0", lastGitRef := "time-7", lastGenerated := "",
    projectId := "p", apps := [], packages := [], groveFeatures := [],
    fileHashes := [], aiDescriptions := [] }

/-! ### Basic facts about the hash and the cache operations -/

theorem md5Digest_length (m : List Nat) : (md5Digest m).length = 16 := by
  simp [md5Digest, le32]

theorem hexFold_length (l : List Nat) :
    (l.foldr
      (fun b acc => hexDigitChar (b / 16 % 16) :: hexDigitChar (b % 16) :: acc)
      []).length = 2 * l.length := by
  induction l with
  | nil => simp
  | cons b rest ih => simp [ih]; omega

theorem calculateHash_length (s : String) : (calculateHash s).length = 32 := by
  have h := hexFold_length (md5Digest (strBytes s))
  rw [md5Digest_length] at h
  simpa [calculateHash, bytesToHex, String.length] using h

/-- An MD5 hex digest is never the empty string; in particular it never
equals the `''` placeholder hash that `updateFunctionCache` writes. -/
theorem calculateHash_ne_empty (s : String) : calculateHash s ≠ "" := by
  intro h
  have h' := congrArg String.length h
  rw [calculateHash_length] at h'
  exact absurd h' (by decide)

theorem lookupA_getD_nil (o : Option FileCache) (p : String) :
    lookupA (o.getD []) p = o.bind fun t => lookupA t p := by
  cases o <;> rfl

theorem lookupA_memTable (s : CMState) (id p : String) :
    lookupA (memTable s id) p = entryIn s.mem id p := by
  simp [memTable, entryIn, lookupA_getD_nil]

theorem entryIn_setA (tables : ProjectCache) (id' : String) (t : FileCache)
    (id p : String) :
    entryIn (setA tables id' t) id p =
      if id' = id then lookupA t p else entryIn tables id p := by
  simp only [entryIn, lookupA_setA]
  by_cases h : id' = id <;> simp [h]

theorem entryIn_removeA (tables : ProjectCache) (id' id p : String) :
    entryIn (removeA tables id') id p =
      if id' = id then none else entryIn tables id p := by
  simp only [entryIn, lookupA_removeA]
  by_cases h : id' = id <;> simp [h]

theorem ensureLoaded_cases (s : CMState) (id : String) :
    ensureLoaded s id = s ∨ ensureLoaded s id = loadProjectCache s id := by
  unfold ensureLoaded
  cases lookupA s.mem id <;> simp

theorem ensureLoaded_disk (s : CMState) (id : String) :
    (ensureLoaded s id).disk = s.disk := by
  rcases ensureLoaded_cases s id with h | h
  · rw [h]
  · rw [h]
    rfl

theorem ensureLoaded_of_isSome (s : CMState) (id : String)
    (h : (lookupA s.mem id).isSome) : ensureLoaded s id = s := by
  unfold ensureLoaded
  cases hl : lookupA s.mem id
  · rw [hl] at h
    exact absurd h (by simp)
  · simp

theorem entryIn_loadProjectCache (s : CMState) (id' id p : String) :
    entryIn (loadProjectCache s id').mem id p =
      if id' = id then entryIn s.disk id p else entryIn s.mem id p := by
  show entryIn (setA s.mem id' ((lookupA s.disk id').getD [])) id p = _
  rw [entryIn_setA]
  by_cases h : id' = id
  · simp [h, lookupA_getD_nil, entryIn]
  · simp [h]

/-- `hasFileChanged` in terms of the entry it sees. -/
theorem hasFileChanged_fst (s : CMState) (id p c : String) :
    (hasFileChanged s id p c).1 =
      match viewEntry s id p with
      | none => true
      | some e => if e.hash = calculateHash c then false else true := by
  cases hl : entryIn (ensureLoaded s id).mem id p <;>
    simp [hasFileChanged, viewEntry, lookupA_memTable, hl]

/-- `hasFileChanged` only ever performs the lazy project load: its
resulting state is `ensureLoaded`, which never writes the disk and
never writes a file entry. -/
theorem hasFileChanged_snd (s : CMState) (id p c : String) :
    (hasFileChanged s id p c).2 = ensureLoaded s id := by
  cases hl : entryIn (ensureLoaded s id).mem id p <;>
    simp [hasFileChanged, lookupA_memTable, hl]

/-- `getCachedFileContent` in terms of the entry it sees. -/
theorem getCachedFileContent_fst (s : CMState) (id p : String) :
    (getCachedFileContent s id p).1 =
      match viewEntry s id p with
      | none => none
      | some e => if e.content = "" then none else some e.content := by
  cases hl : entryIn (ensureLoaded s id).mem id p <;>
    simp [getCachedFileContent, viewEntry, lookupA_memTable, hl]

theorem getCachedFileContent_snd (s : CMState) (id p : String) :
    (getCachedFileContent s id p).2 = ensureLoaded s id := by
  cases hl : entryIn (ensureLoaded s id).mem id p <;>
    simp [getCachedFileContent, lookupA_memTable, hl]

/-- The entry written by `updateFileCache`, at both the in-memory table
and the persisted project file: new content, hash and timestamp, with
the previously visible `functions` sub-map (empty when no entry existed). -/
theorem updateFileCache_spec (s : CMState) (id p c : String) (now : Nat) :
    entryIn (updateFileCache s id p c now).mem id p =
      some { content := c, hash := calculateHash c, lastModified := now,
             functions := ((viewEntry s id p).map FileEntry.functions).getD [] }
    ∧ entryIn (updateFileCache s id p c now).disk id p =
      some { content := c, hash := calculateHash c, lastModified := now,
             functions := ((viewEntry s id p).map FileEntry.functions).getD [] } := by
  unfold updateFileCache saveProjectCache viewEntry
  constructor <;>
    simp [entryIn_setA, lookupA_setA, lookupA_memTable]

/-- Frame of `updateFileCache` at any `(id, p)` other than the written
`(id', p')`: the in-memory entry is whatever was visible after the lazy
load, and the persisted entry is that same value for the written
project and untouched for any other project. -/
theorem updateFileCache_entry_frame (s : CMState) (id' p' c : String)
    (now : Nat) (id p : String) (hne : ¬(id' = id ∧ p' = p)) :
    entryIn (updateFileCache s id' p' c now).mem id p
        = entryIn (ensureLoaded s id').mem id p
    ∧ entryIn (updateFileCache s id' p' c now).disk id p
        = (if id' = id then entryIn (ensureLoaded s id').mem id p
           else entryIn s.disk id p) := by
  unfold updateFileCache saveProjectCache
  constructor
  · by_cases h1 : id' = id
    · have h2 : ¬ p' = p := fun hp => hne ⟨h1, hp⟩
      simp [entryIn_setA, lookupA_setA, h1, h2, lookupA_memTable]
    · simp [entryIn_setA, h1]
  · by_cases h1 : id' = id
    · have h2 : ¬ p' = p := fun hp => hne ⟨h1, hp⟩
      simp [entryIn_setA, lookupA_setA, h1, h2, lookupA_memTable,
        ensureLoaded_disk]
    · simp [entryIn_setA, lookupA_setA, h1, ensureLoaded_disk]

/-- The entries of the state after `updateFunctionCache s id' p' fn fc d`,
at an arbitrary `(id, p)`. -/
theorem updateFunctionCache_entry (s : CMState) (id' p' fn fc d id p : String) :
    entryIn (updateFunctionCache s id' p' fn fc d).mem id p
        = (if id' = id ∧ p' = p then some (funcUpdatedEntry s id' p' fn fc d)
           else entryIn (ensureLoaded s id').mem id p)
    ∧ entryIn (updateFunctionCache s id' p' fn fc d).disk id p
        = (if id' = id ∧ p' = p then some (funcUpdatedEntry s id' p' fn fc d)
           else if id' = id then entryIn (ensureLoaded s id').mem id p
           else entryIn s.disk id p) := by
  unfold updateFunctionCache funcUpdatedEntry viewEntry saveProjectCache
  constructor
  · by_cases h1 : id' = id
    · by_cases h2 : p' = p <;>
        simp [entryIn_setA, lookupA_setA, h1, h2, lookupA_memTable]
    · have hne : ¬ (id' = id ∧ p' = p) := fun hc => h1 hc.1
      simp [entryIn_setA, h1, hne]
  · by_cases h1 : id' = id
    · by_cases h2 : p' = p <;>
        simp [entryIn_setA, lookupA_setA, h1, h2, lookupA_memTable,
          ensureLoaded_disk]
    · have hne : ¬ (id' = id ∧ p' = p) := fun hc => h1 hc.1
      simp [entryIn_setA, lookupA_setA, h1, hne, ensureLoaded_disk]

theorem untouchedInv_init (id p : String) : UntouchedInv CMState.init id p := by
  constructor <;> intro e he <;> simp [CMState.init, entryIn, lookupA] at he

theorem untouchedInv_load (s : CMState) (id p id' : String)
    (h : UntouchedInv s id p) : UntouchedInv (loadProjectCache s id') id p := by
  constructor
  · intro e he
    rw [entryIn_loadProjectCache] at he
    by_cases h1 : id' = id
    · rw [if_pos h1] at he
      exact h.2 e he
    · rw [if_neg h1] at he
      exact h.1 e he
  · intro e he
    exact h.2 e he

theorem untouchedInv_ensure (s : CMState) (id p id' : String)
    (h : UntouchedInv s id p) : UntouchedInv (ensureLoaded s id') id p := by
  rcases ensureLoaded_cases s id' with he | he <;> rw [he]
  · exact h
  · exact untouchedInv_load s id p id' h

theorem untouchedInv_clear (s : CMState) (id p id' : String)
    (h : UntouchedInv s id p) : UntouchedInv (clearProjectCache s id') id p := by
  constructor
  · intro e he
    rw [show (clearProjectCache s id').mem = removeA s.mem id' from rfl,
        entryIn_removeA] at he
    by_cases h1 : id' = id
    · rw [if_pos h1] at he
      exact absurd he (by simp)
    · rw [if_neg h1] at he
      exact h.1 e he
  · intro e he
    rw [show (clearProjectCache s id').disk = removeA s.disk id' from rfl,
        entryIn_removeA] at he
    by_cases h1 : id' = id
    · rw [if_pos h1] at he
      exact absurd he (by simp)
    · rw [if_neg h1] at he
      exact h.2 e he

/-- Under the invariant, the visible entry's hash is the placeholder. -/
theorem viewEntry_hash_of_inv (s : CMState) (id p : String)
    (h : UntouchedInv s id p) :
    ((viewEntry s id p).getD
      { content := "", hash := "", lastModified := 0, functions := [] }).hash
      = "" := by
  have h₁ := untouchedInv_ensure s id p id h
  cases hv : viewEntry s id p
  · rfl
  · exact h₁.1 _ hv

theorem untouchedInv_updateFileCache (s : CMState) (id p id' p' c : String)
    (now : Nat) (h : UntouchedInv s id p) (hne : ¬(id' = id ∧ p' = p)) :
    UntouchedInv (updateFileCache s id' p' c now) id p := by
  obtain ⟨hm, hd⟩ := updateFileCache_entry_frame s id' p' c now id p hne
  have h₁ := untouchedInv_ensure s id p id' h
  constructor
  · intro e he
    rw [hm] at he
    exact h₁.1 e he
  · intro e he
    rw [hd] at he
    by_cases h2 : id' = id
    · rw [if_pos h2] at he
      exact h₁.1 e he
    · rw [if_neg h2] at he
      exact h.2 e he

theorem untouchedInv_updateFunctionCache (s : CMState)
    (id p id' p' fn fc d : String) (h : UntouchedInv s id p) :
    UntouchedInv (updateFunctionCache s id' p' fn fc d) id p := by
  obtain ⟨hm, hd⟩ := updateFunctionCache_entry s id' p' fn fc d id p
  have h₁ := untouchedInv_ensure s id p id' h
  have hnewhash : ∀ _ : id' = id ∧ p' = p,
      (funcUpdatedEntry s id' p' fn fc d).hash = "" := by
    intro hc
    rw [hc.1, hc.2]
    have hv := viewEntry_hash_of_inv s id p h
    simpa [funcUpdatedEntry] using hv
  constructor
  · intro e he
    rw [hm] at he
    by_cases hc : id' = id ∧ p' = p
    · rw [if_pos hc] at he
      exact (Option.some.inj he) ▸ hnewhash hc
    · rw [if_neg hc] at he
      exact h₁.1 e he
  · intro e he
    rw [hd] at he
    by_cases hc : id' = id ∧ p' = p
    · rw [if_pos hc] at he
      exact (Option.some.inj he) ▸ hnewhash hc
    · rw [if_neg hc] at he
      by_cases h2 : id' = id
      · rw [if_pos h2] at he
        exact h₁.1 e he
      · rw [if_neg h2] at he
        exact h.2 e he

theorem untouchedInv_applyOp (s : CMState) (op : CMOp) (id p : String)
    (h : UntouchedInv s id p) (hw : writesFile op id p = false) :
    UntouchedInv (applyOp s op) id p := by
  cases op with
  | opUpdateFile id₀ p₀ c now =>
    have hne : ¬ (id₀ = id ∧ p₀ = p) := by
      intro hc
      simp [writesFile, hc.1, hc.2] at hw
    exact untouchedInv_updateFileCache s id p id₀ p₀ c now h hne
  | opUpdateFunction id₀ p₀ fn fc d =>
    exact untouchedInv_updateFunctionCache s id p id₀ p₀ fn fc d h
  | opLoad id₀ => exact untouchedInv_load s id p id₀ h
  | opClear id₀ => exact untouchedInv_clear s id p id₀ h
  | opQueryChanged id₀ p₀ c =>
    show UntouchedInv (hasFileChanged s id₀ p₀ c).2 id p
    rw [hasFileChanged_snd]
    exact untouchedInv_ensure s id p id₀ h
  | opQueryContent id₀ p₀ =>
    show UntouchedInv (getCachedFileContent s id₀ p₀).2 id p
    rw [getCachedFileContent_snd]
    exact untouchedInv_ensure s id p id₀ h

theorem untouchedInv_runOps_from (ops : List CMOp) (s : CMState)
    (id p : String) (hs : UntouchedInv s id p)
    (h : ∀ op ∈ ops, writesFile op id p = false) :
    UntouchedInv (runOps s ops) id p := by
  induction ops generalizing s with
  | nil => exact hs
  | cons op rest ih =>
    exact ih (applyOp s op)
      (untouchedInv_applyOp s op id p hs (h op (List.mem_cons_self op rest)))
      (fun o ho => h o (List.mem_cons_of_mem op ho))

/-- Every state reachable from a fresh `CacheManager` without passing
`(id, p)` to `updateFileCache` keeps the invariant. -/
theorem untouchedInv_runOps (ops : List CMOp) (id p : String)
    (h : ∀ op ∈ ops, writesFile op id p = false) :
    UntouchedInv (runOps CMState.init ops) id p :=
  untouchedInv_runOps_from ops CMState.init id p (untouchedInv_init id p) h

/-- In any invariant state, `hasFileChanged` answers `true` for every
content, because no MD5 digest equals the placeholder hash. -/
theorem hasFileChanged_of_inv (s : CMState) (id p c : String)
    (h : UntouchedInv s id p) : (hasFileChanged s id p c).1 = true := by
  rw [hasFileChanged_fst]
  have h₁ := untouchedInv_ensure s id p id h
  cases hv : viewEntry s id p with
  | none => rfl
  | some e =>
    have he : e.hash = "" := h₁.1 e hv
    have hne : ¬ e.hash = calculateHash c := by
      rw [he]
      exact fun hh => calculateHash_ne_empty c hh.symm
    simp [hne]

theorem updateFileCache_mem_isSome (s : CMState) (id' p' c : String)
    (now : Nat) : (lookupA (updateFileCache s id' p' c now).mem id').isSome := by
  unfold updateFileCache saveProjectCache
  simp [lookupA_setA]

theorem updateFunctionCache_mem_isSome (s : CMState)
    (id' p' fn fc d : String) :
    (lookupA (updateFunctionCache s id' p' fn fc d).mem id').isSome := by
  unfold updateFunctionCache saveProjectCache
  simp [lookupA_setA]

/-- The entry visible right after `updateFileCache`. -/
theorem viewEntry_updateFileCache_self (s : CMState) (id p c : String)
    (now : Nat) :
    viewEntry (updateFileCache s id p c now) id p =
      some { content := c, hash := calculateHash c, lastModified := now,
             functions := ((viewEntry s id p).map FileEntry.functions).getD [] } := by
  unfold viewEntry
  rw [ensureLoaded_of_isSome _ _ (updateFileCache_mem_isSome s id p c now)]
  exact (updateFileCache_spec s id p c now).1

/-- The entry visible right after `updateFunctionCache`. -/
theorem viewEntry_updateFunctionCache_self (s : CMState)
    (id p fn fc d : String) :
    viewEntry (updateFunctionCache s id p fn fc d) id p =
      some (funcUpdatedEntry s id p fn fc d) := by
  unfold viewEntry
  rw [ensureLoaded_of_isSome _ _ (updateFunctionCache_mem_isSome s id p fn fc d)]
  have h := (updateFunctionCache_entry s id p fn fc d id p).1
  simpa using h

/-! ### The synthetic time token and the diff parser -/

theorem decimalDigitsGo_small (fuel n : Nat) (h : n < 10) :
    decimalDigitsGo fuel n = [digitChar n] := by
  cases fuel with
  | zero => simp [decimalDigitsGo, Nat.mod_eq_of_lt h]
  | succ f => simp [decimalDigitsGo, h]

theorem decimalDigitsGo_ne_nil (fuel n : Nat) :
    decimalDigitsGo fuel n ≠ [] := by
  cases fuel with
  | zero => simp [decimalDigitsGo]
  | succ f =>
    by_cases h : n < 10 <;> simp [decimalDigitsGo, h]

theorem digitChar_inj (a b : Nat) (ha : a < 10) (hb : b < 10)
    (h : digitChar a = digitChar b) : a = b := by
  interval_cases a <;> interval_cases b <;> revert h <;> decide

theorem decimalDigitsGo_inj (n : Nat) :
    ∀ m fuel₁ fuel₂, n ≤ fuel₁ → m ≤ fuel₂ →
      decimalDigitsGo fuel₁ n = decimalDigitsGo fuel₂ m → n = m := by
  induction n using Nat.strong_induction_on with
  | _ n ih =>
    intro m fuel₁ fuel₂ h₁ h₂ h
    by_cases hn : n < 10
    · by_cases hm : m < 10
      · rw [decimalDigitsGo_small fuel₁ n hn,
          decimalDigitsGo_small fuel₂ m hm] at h
        exact digitChar_inj n m hn hm (List.cons.inj h).1
      · exfalso
        cases fuel₂ with
        | zero => exact hm (by omega)
        | succ f =>
          rw [decimalDigitsGo_small fuel₁ n hn] at h
          rw [decimalDigitsGo, if_neg hm] at h
          have hlen := congrArg List.length h
          have hne := decimalDigitsGo_ne_nil f (m / 10)
          have hpos : 0 < (decimalDigitsGo f (m / 10)).length :=
            List.length_pos.mpr hne
          rw [List.length_append] at hlen
          simp only [List.length_cons, List.length_nil] at hlen
          omega
    · by_cases hm : m < 10
      · exfalso
        cases fuel₁ with
        | zero => exact hn (by omega)
        | succ f =>
          rw [decimalDigitsGo_small fuel₂ m hm] at h
          rw [decimalDigitsGo, if_neg hn] at h
          have hlen := congrArg List.length h
          have hne := decimalDigitsGo_ne_nil f (n / 10)
          have hpos : 0 < (decimalDigitsGo f (n / 10)).length :=
            List.length_pos.mpr hne
          rw [List.length_append] at hlen
          simp only [List.length_cons, List.length_nil] at hlen
          omega
      · cases fuel₁ with
        | zero => exact absurd (by omega : n < 10) hn
        | succ f₁ =>
          cases fuel₂ with
          | zero => exact absurd (by omega : m < 10) hm
          | succ f₂ =>
            rw [decimalDigitsGo, if_neg hn, decimalDigitsGo, if_neg hm] at h
            obtain ⟨hheads, htails⟩ := List.append_inj' h (by simp)
            have hmod : n % 10 = m % 10 :=
              digitChar_inj _ _ (Nat.mod_lt n (by omega))
                (Nat.mod_lt m (by omega)) (List.cons.inj htails).1
            have hnd : n / 10 < n := Nat.div_lt_self (by omega) (by omega)
            have hmd : m / 10 < m := Nat.div_lt_self (by omega) (by omega)
            have hdiv : n / 10 = m / 10 :=
              ih (n / 10) hnd (m / 10) f₁ f₂ (by omega) (by omega) hheads
            have hn10 := Nat.div_add_mod n 10
            have hm10 := Nat.div_add_mod m 10
            omega

theorem decimalString_inj (n m : Nat) (h : decimalString n = decimalString m) :
    n = m := by
  have hd := congrArg String.data h
  exact decimalDigitsGo_inj n m n m (le_refl n) (le_refl m) hd

theorem timeToken_inj (t₁ t₂ : Nat)
    (h : getCurrentGitRef none t₁ = getCurrentGitRef none t₂) : t₁ = t₂ := by
  have hd := congrArg String.data h
  rw [show getCurrentGitRef none t₁ = "time-" ++ decimalString t₁ from rfl,
    show getCurrentGitRef none t₂ = "time-" ++ decimalString t₂ from rfl,
    String.data_append, String.data_append] at hd
  have hl := List.append_cancel_left hd
  exact decimalString_inj t₁ t₂ (by
    apply congrArg String.mk at hl
    simpa [decimalString] using hl)

theorem parseDiffLine_unchanged (cs : ChangeSet) (line : String) :
    (parseDiffLine cs line).unchanged = cs.unchanged := by
  unfold parseDiffLine
  cases jsSplit line '\t' with
  | nil => rfl
  | cons status pathParts =>
    simp only []
    split_ifs <;> rfl

theorem parseDiff_foldl_unchanged (lines : List String) (cs : ChangeSet) :
    (lines.foldl parseDiffLine cs).unchanged = cs.unchanged := by
  induction lines generalizing cs with
  | nil => rfl
  | cons l rest ih => rw [List.foldl_cons, ih, parseDiffLine_unchanged]

/-- The diff-parsing loop never classifies anything as unchanged. -/
theorem parseDiffOutput_unchanged (out : String) :
    (parseDiffOutput out).unchanged = [] := by
  unfold parseDiffOutput
  rw [parseDiff_foldl_unchanged]

/-! ### The claims -/

/-- C1: `detectChanges` follows the three-signal protocol. When loading
the snapshot yields null it returns `{added := ["*"]}`; when a snapshot
exists and its `lastGitRef` equals `getCurrentGitRef` it returns
`{unchanged := ["*"]}`; and when the history-diff command fails it
returns `{added := ["*"]}` — never a partial classification. -/
theorem claim_C1 :
    (∀ env : GenEnv, loadCache env.memo env.cacheFile = none →
      detectChanges env =
        { added := ["*"], modified := [], deleted := [], unchanged := [] }) ∧
    (∀ env : GenEnv, ∀ c, loadCache env.memo env.cacheFile = some c →
      c.lastGitRef = getCurrentGitRef env.git env.now →
      detectChanges env =
        { added := [], modified := [], deleted := [], unchanged := ["*"] }) ∧
    (∀ env : GenEnv, ∀ c, loadCache env.memo env.cacheFile = some c →
      c.lastGitRef ≠ getCurrentGitRef env.git env.now →
      env.diff = none →
      detectChanges env =
        { added := ["*"], modified := [], deleted := [], unchanged := [] }) := by
  refine ⟨?_, ?_, ?_⟩
  · intro env h
    simp [detectChanges, h]
  · intro env c h he
    simp [detectChanges, h, he]
  · intro env c h he hd
    simp [detectChanges, h, he, hd]

/-- Witness for C1: the three signals at concrete environments. -/
theorem claim_C1_witness :
    detectChanges ⟨none, none, none, 0, none⟩ =
      { added := ["*"], modified := [], deleted := [], unchanged := [] } ∧
    detectChanges ⟨some (.parsed sampleCache), none, none, 7, none⟩ =
      { added := [], modified := [], deleted := [], unchanged := ["*"] } ∧
    detectChanges ⟨some (.parsed sampleCache), none, none, 8, none⟩ =
      { added := ["*"], modified := [], deleted := [], unchanged := [] } :=
  ⟨claim_C1.1 _ rfl,
   claim_C1.2.1 _ sampleCache rfl (by decide),
   claim_C1.2.2 _ sampleCache rfl (by decide) rfl⟩

/-- C2: after `updateFileCache id p a`, `hasFileChanged id p a` answers
false and `hasFileChanged id p b` answers true whenever
`hash a ≠ hash b`; for a path never passed to `updateFileCache`,
`hasFileChanged` answers true in every reachable state; and a
`hasFileChanged` call that answers false leaves the stored entry
untouched (its only state effect is the lazy project load, which
never touches the disk or any file entry). -/
theorem claim_C2 :
    (∀ (s : CMState) (id p a b : String) (now : Nat),
      calculateHash a ≠ calculateHash b →
      (hasFileChanged (updateFileCache s id p a now) id p a).1 = false ∧
      (hasFileChanged (updateFileCache s id p a now) id p b).1 = true) ∧
    (∀ (ops : List CMOp) (id p c : String),
      (∀ op ∈ ops, writesFile op id p = false) →
      (hasFileChanged (runOps CMState.init ops) id p c).1 = true) ∧
    (∀ (s : CMState) (id p c : String),
      (hasFileChanged s id p c).1 = false →
      entryIn (hasFileChanged s id p c).2.mem id p = viewEntry s id p ∧
      (hasFileChanged s id p c).2.disk = s.disk) := by
  refine ⟨?_, ?_, ?_⟩
  · intro s id p a b now hab
    constructor
    · rw [hasFileChanged_fst, viewEntry_updateFileCache_self]
      simp
    · rw [hasFileChanged_fst, viewEntry_updateFileCache_self]
      simp [hab]
  · intro ops id p c hops
    exact hasFileChanged_of_inv _ id p c (untouchedInv_runOps ops id p hops)
  · intro s id p c _
    constructor
    · rw [hasFileChanged_snd]
      rfl
    · rw [hasFileChanged_snd, ensureLoaded_disk]

/-- Witness for C2 at concrete contents and states. -/
theorem claim_C2_witness :
    calculateHash "alpha" ≠ calculateHash "beta" ∧
    (hasFileChanged (updateFileCache CMState.init "proj" "src/a.ts" "alpha" 5)
      "proj" "src/a.ts" "alpha").1 = false ∧
    (hasFileChanged (updateFileCache CMState.init "proj" "src/a.ts" "alpha" 5)
      "proj" "src/a.ts" "beta").1 = true ∧
    (hasFileChanged
      (runOps CMState.init [CMOp.opUpdateFile "proj" "src/b.ts" "x" 1])
      "proj" "src/a.ts" "alpha").1 = true ∧
    entryIn (hasFileChanged
        (updateFileCache CMState.init "proj" "src/a.ts" "alpha" 5)
        "proj" "src/a.ts" "alpha").2.mem "proj" "src/a.ts"
      = viewEntry (updateFileCache CMState.init "proj" "src/a.ts" "alpha" 5)
        "proj" "src/a.ts" :=
  have hab : calculateHash "alpha" ≠ calculateHash "beta" := by decide
  ⟨hab,
   (claim_C2.1 CMState.init "proj" "src/a.ts" "alpha" "beta" 5 hab).1,
   (claim_C2.1 CMState.init "proj" "src/a.ts" "alpha" "beta" 5 hab).2,
   claim_C2.2.1 [CMOp.opUpdateFile "proj" "src/b.ts" "x" 1] "proj"
     "src/a.ts" "alpha" (by decide),
   (claim_C2.2.2 (updateFileCache CMState.init "proj" "src/a.ts" "alpha" 5)
     "proj" "src/a.ts" "alpha" (by decide)).1⟩

/-- C3: loading the snapshot cache yields null when the file does not
exist, when its contents fail to parse, and when the parsed record's
version differs from `CACHE_VERSION` — never a partially-trusted
snapshot. -/
theorem claim_C3 :
    loadCache none none = none ∧
    loadCache none (some CacheFileRead.unparsable) = none ∧
    (∀ d : IncrementalCache, d.version ≠ CACHE_VERSION →
      loadCache none (some (CacheFileRead.parsed d)) = none) := by
  refine ⟨rfl, rfl, ?_⟩
  intro d h
  simp [loadCache, h]

/-- Witness for C3: a version-mismatched snapshot loads as null. -/
theorem claim_C3_witness :
    loadCache none
      (some (CacheFileRead.parsed { sampleCache with version := "1.0" }))
      = none :=
  claim_C3.2.2 _ (by decide)

/-- C4: the code evaluated at a real git rename line. `git diff` with
`--name-status` reports renames as `R<score>` (for example `R100`),
but the switch matches only the exact status string `R`, so a real
rename line is dropped entirely: the old path is not recorded as
deleted and the new path is not recorded as added — contradicting the
inline comment and the spec'd delete-plus-add classification. A bare
`R` status line, which git never emits here, would be classified as
intended. -/
theorem claim_C4 :
    detectChanges ⟨some (.parsed sampleCache), none, none, 8,
        some "R100\told.txt\tnew.txt"⟩ =
      { added := [], modified := [], deleted := [], unchanged := [] } ∧
    parseDiffOutput "R\told.txt\tnew.txt" =
      { added := ["new.txt"], modified := [], deleted := ["old.txt"],
        unchanged := [] } := by
  constructor
  · decide
  · decide

/-- Counterexample to C5 as stated: two distinct calls within the same
millisecond (`Date.now() = 7` twice) return equal tokens; and with a
snapshot whose stored reference was minted at that same millisecond,
change detection without version control does report the all-unchanged
sentinel. -/
theorem claim_C5_counterexample :
    ¬ (List.map (getCurrentGitRef none) [7, 7]).Nodup ∧
    detectChanges ⟨some (.parsed sampleCache), none, none, 7, none⟩ =
      { added := [], modified := [], deleted := [], unchanged := ["*"] } := by
  constructor
  · decide
  · decide

/-- C5 (amended): without version control `getCurrentGitRef` returns
`"time-"` followed by the millisecond timestamp; calls at distinct
timestamps return distinct tokens, and whenever the stored reference
was minted at a millisecond different from the current call's, change
detection never reports "nothing changed" (its `unchanged` list is
empty). Calls within the same millisecond return equal tokens, so the
claim's unconditional form fails. -/
theorem claim_C5 :
    (∀ t₁ t₂ : Nat, t₁ ≠ t₂ →
      getCurrentGitRef none t₁ ≠ getCurrentGitRef none t₂) ∧
    (∀ (env : GenEnv) (t₁ : Nat), env.git = none → env.now ≠ t₁ →
      (∀ c, loadCache env.memo env.cacheFile = some c →
        c.lastGitRef = getCurrentGitRef none t₁) →
      (detectChanges env).unchanged = []) := by
  constructor
  · intro t₁ t₂ hne h
    exact hne (timeToken_inj t₁ t₂ h)
  · intro env t₁ hgit hnow hc
    cases hl : loadCache env.memo env.cacheFile with
    | none => simp [detectChanges, hl]
    | some c =>
      have hcc := hc c hl
      have hne : ¬ c.lastGitRef = getCurrentGitRef env.git env.now := by
        rw [hcc, hgit]
        intro h
        exact hnow (timeToken_inj t₁ env.now h).symm
      cases hd : env.diff with
      | none => simp [detectChanges, hl, hne, hd]
      | some out => simp [detectChanges, hl, hne, hd, parseDiffOutput_unchanged]

/-- Witness for C5 at concrete timestamps and environment. -/
theorem claim_C5_witness :
    getCurrentGitRef none 7 ≠ getCurrentGitRef none 8 ∧
    (detectChanges ⟨some (.parsed sampleCache), none, none, 8,
        some "A\ta.ts"⟩).unchanged = [] := by
  constructor
  · exact claim_C5.1 7 8 (by decide)
  · refine claim_C5.2 _ 7 rfl (by decide) ?_
    intro c hc
    have h1 : (some sampleCache : Option IncrementalCache) = some c :=
      Eq.trans
        (id (by decide : loadCache none
          (some (CacheFileRead.parsed sampleCache)) = some sampleCache)).symm
        hc
    have h2 := Option.some.inj h1
    subst h2
    decide

/-- C6: `updateFileCache` replaces the entry's content, hash and
last-modified timestamp — in memory and in the persisted project file —
while the entry's `functions` map is exactly the one visible before
the call (empty when no entry existed): no function sub-entry is
created, removed or altered by a whole-file update. -/
theorem claim_C6 (s : CMState) (id p c : String) (now : Nat) :
    entryIn (updateFileCache s id p c now).mem id p =
      some { content := c, hash := calculateHash c, lastModified := now,
             functions := ((viewEntry s id p).map FileEntry.functions).getD [] }
    ∧ entryIn (updateFileCache s id p c now).disk id p =
      some { content := c, hash := calculateHash c, lastModified := now,
             functions := ((viewEntry s id p).map FileEntry.functions).getD [] } :=
  updateFileCache_spec s id p c now

/-- C7: the claim refuted on the code. The debounce callback is
async: `this.updateTimeout = null` runs only after
`await this.updateRules()` resolves. On `raceTrace`, a relevant event
arriving during the in-flight regeneration schedules timer 1 (its
`clearTimeout` of the already-fired handle is a no-op), the completion
then nulls the stored handle and orphans timer 1, and the next
relevant event finds nothing to cancel and schedules timer 2 — leaving
timer 1 still scheduled (it cancelled no pending timer) and the
session holding two pending debounce timers, in violation of the
claimed at-most-one invariant. -/
theorem claim_C7 :
    (runW WatchState.init raceTrace).liveTimers = [1, 2] ∧
    1 ∈ (runW WatchState.init raceTrace).liveTimers ∧
    ¬ TimerInv (runW WatchState.init raceTrace) := by
  refine ⟨by decide, by decide, ?_⟩
  intro h
  exact absurd h.1 (by decide)

/-- C8: the default project id is `path.basename` of the given path —
its final segment only; `addProject` is a no-op returning the id when
it is already registered; hence for two distinct paths sharing a
directory basename, the second registration returns the first
project's id and neither creates nor replaces a watcher (the first
path's watcher is still the registered one). -/
theorem claim_C8 :
    (∀ p : String, generateProjectId p = basename p) ∧
    (∀ (w : Watchers) (projectPath projectId : String),
      (lookupA w projectId).isSome →
      addProject w projectPath projectId = (w, projectId)) ∧
    (∀ (w : Watchers) (p₁ p₂ : String), basename p₂ = basename p₁ →
      lookupA w (basename p₁) = none →
      addProjectDefault (addProjectDefault w p₁).1 p₂
          = ((addProjectDefault w p₁).1, basename p₁) ∧
      lookupA (addProjectDefault w p₁).1 (basename p₁)
          = some ⟨p₁, basename p₁⟩) := by
  refine ⟨fun p => rfl, ?_, ?_⟩
  · intro w pp id h
    cases hl : lookupA w id with
    | none =>
      rw [hl] at h
      exact absurd h (by simp)
    | some wr => simp [addProject, hl]
  · intro w p₁ p₂ hb hnone
    have hreg : (addProjectDefault w p₁).1
        = setA w (basename p₁) ⟨p₁, basename p₁⟩ := by
      simp [addProjectDefault, addProject, hnone]
    have hlook : lookupA (addProjectDefault w p₁).1 (basename p₁)
        = some ⟨p₁, basename p₁⟩ := by
      rw [hreg, lookupA_setA]
      simp
    refine ⟨?_, hlook⟩
    show addProject (addProjectDefault w p₁).1 p₂ (basename p₂) = _
    rw [hb]
    simp [addProject, hlook]

/-- Witness for C8: two home directories sharing the basename `proj`. -/
theorem claim_C8_witness :
    addProject [("proj", ⟨"/x", "proj"⟩)] "/y" "proj"
        = ([("proj", ⟨"/x", "proj"⟩)], "proj") ∧
    addProjectDefault (addProjectDefault [] "/home/alice/proj").1
        "/home/bob/proj"
      = ((addProjectDefault [] "/home/alice/proj").1,
         basename "/home/alice/proj") ∧
    lookupA (addProjectDefault [] "/home/alice/proj").1
        (basename "/home/alice/proj")
      = some ⟨"/home/alice/proj", basename "/home/alice/proj"⟩ :=
  ⟨claim_C8.2.1 [("proj", ⟨"/x", "proj"⟩)] "/y" "proj" (by decide),
   (claim_C8.2.2 [] "/home/alice/proj" "/home/bob/proj" (by decide) rfl).1,
   (claim_C8.2.2 [] "/home/alice/proj" "/home/bob/proj" (by decide) rfl).2⟩

/-- C9: a stored entry whose content is the empty string is read back
as null by `getCachedFileContent` (the `|| null` turns the falsy empty
string into the null sentinel), exactly as when no entry exists — the
two are indistinguishable at the read interface. -/
theorem claim_C9 :
    (∀ (s : CMState) (id p : String) (e : FileEntry),
      viewEntry s id p = some e → e.content = "" →
      (getCachedFileContent s id p).1 = none) ∧
    (∀ (s : CMState) (id p : String),
      viewEntry s id p = none → (getCachedFileContent s id p).1 = none) := by
  constructor
  · intro s id p e hv hc
    rw [getCachedFileContent_fst, hv]
    simp [hc]
  · intro s id p hv
    rw [getCachedFileContent_fst, hv]

/-- Witness for C9: after `updateFunctionCache` created the parent
entry (content `''`), the read returns null. -/
theorem claim_C9_witness :
    (getCachedFileContent
      (updateFunctionCache CMState.init "proj" "a.ts" "fn" "body" "desc")
      "proj" "a.ts").1 = none :=
  claim_C9.1 _ "proj" "a.ts"
    { content := "", hash := "", lastModified := 0,
      functions := [("fn", { description := "desc",
                             hash := calculateHash "body" })] }
    (by decide) rfl

/-- C10: `updateFunctionCache` on a path never passed to
`updateFileCache` creates the parent entry with the empty placeholder
hash; no MD5 digest equals that placeholder, so `hasFileChanged` still
answers true for every content — registering a function description
never marks the containing file as seen. -/
theorem claim_C10 :
    ∀ (ops : List CMOp) (id p fn fc d : String),
      (∀ op ∈ ops, writesFile op id p = false) →
      (∃ e, entryIn (updateFunctionCache (runOps CMState.init ops)
          id p fn fc d).mem id p = some e ∧ e.hash = "") ∧
      (∀ c, calculateHash c ≠ "" ∧
        (hasFileChanged (updateFunctionCache (runOps CMState.init ops)
          id p fn fc d) id p c).1 = true) := by
  intro ops id p fn fc d hops
  have hinv := untouchedInv_runOps ops id p hops
  have hhash :
      (funcUpdatedEntry (runOps CMState.init ops) id p fn fc d).hash = "" := by
    have hv := viewEntry_hash_of_inv (runOps CMState.init ops) id p hinv
    simpa [funcUpdatedEntry] using hv
  constructor
  · refine ⟨funcUpdatedEntry (runOps CMState.init ops) id p fn fc d, ?_, hhash⟩
    have hm := (updateFunctionCache_entry (runOps CMState.init ops)
      id p fn fc d id p).1
    simpa using hm
  · intro c
    refine ⟨calculateHash_ne_empty c, ?_⟩
    rw [hasFileChanged_fst, viewEntry_updateFunctionCache_self]
    have hne : ¬ (funcUpdatedEntry (runOps CMState.init ops)
        id p fn fc d).hash = calculateHash c := by
      rw [hhash]
      exact fun hh => calculateHash_ne_empty c hh.symm
    simp [hne]

/-- Witness for C10: one unrelated whole-file update, then a function
registration for an untouched path. -/
theorem claim_C10_witness :
    (∃ e, entryIn (updateFunctionCache
        (runOps CMState.init [CMOp.opUpdateFile "proj" "b.ts" "x" 1])
        "proj" "a.ts" "fn" "body" "desc").mem "proj" "a.ts" = some e ∧
      e.hash = "") ∧
    (∀ c, calculateHash c ≠ "" ∧
      (hasFileChanged (updateFunctionCache
        (runOps CMState.init [CMOp.opUpdateFile "proj" "b.ts" "x" 1])
        "proj" "a.ts" "fn" "body" "desc") "proj" "a.ts" c).1 = true) :=
  claim_C10 [CMOp.opUpdateFile "proj" "b.ts" "x" 1] "proj" "a.ts" "fn"
    "body" "desc" (by decide)

end CursorDirectory
